import Mathlib

/-!
Verification of src/gitsome/config.py (class Config) against its
natural-language specification.

Python strings are modelled as `List Char`.  The Python string methods the
module uses (`str.strip`, `str.replace` with empty replacement, `str.split`
with a non-empty separator) are modelled character by character below,
following CPython semantics: `replace` scans the string left to right and
removes non-overlapping occurrences of the pattern; `split` cuts at each
non-overlapping occurrence of the separator, scanning left to right.

Both recursive scanners are written with an explicit fuel argument equal to
the length of the scanned string, which makes them structurally recursive
(hence kernel-computable); each scanning step consumes at least one
character, so this fuel is always sufficient and the fuel-free semantics is
recovered exactly.
-/

namespace Gitsome

/-- Single-quote character (code 39), written via its code point. -/
def sqc : Char := Char.ofNat 39

/-- Whitespace test matching CPython `str.strip()` for the ASCII range. -/
def isPySpace (c : Char) : Bool :=
  c = ' ' || c = '\t' || c = '\n' || c = '\r' || c = '\x0b' || c = '\x0c'

/-- Python `s.strip()`: drop whitespace from both ends. -/
def pyStrip (s : List Char) : List Char :=
  ((s.dropWhile isPySpace).reverse.dropWhile isPySpace).reverse

/-- Scanner for Python `s.replace(pat, "")` with non-empty pattern
`p :: ps`: at each position, if the pattern starts here, skip it and
continue after it, otherwise keep the character.  The fuel is an upper
bound on the number of scanning steps. -/
def pyReplaceAux (p : Char) (ps : List Char) : Nat → List Char → List Char
  | 0, s => s
  | _ + 1, [] => []
  | fuel + 1, c :: rest =>
    if (p :: ps).isPrefixOf (c :: rest) then
      pyReplaceAux p ps fuel (rest.drop ps.length)
    else
      c :: pyReplaceAux p ps fuel rest

/-- Python `s.replace(pat, "")` (the only form of `replace` the module
uses).  An empty pattern with empty replacement leaves the string
unchanged, as in CPython. -/
def pyReplaceDel (s : List Char) (pat : List Char) : List Char :=
  match pat with
  | [] => s
  | p :: ps => pyReplaceAux p ps s.length s

/-- Scanner for Python `s.split(sep)` with non-empty separator `p :: ps`;
`acc` holds the reversed characters of the piece currently being built. -/
def pySplitAux (p : Char) (ps : List Char) :
    Nat → List Char → List Char → List (List Char)
  | 0, s, acc => [acc.reverse ++ s]
  | _ + 1, [], acc => [acc.reverse]
  | fuel + 1, c :: rest, acc =>
    if (p :: ps).isPrefixOf (c :: rest) then
      acc.reverse :: pySplitAux p ps fuel (rest.drop ps.length) []
    else
      pySplitAux p ps fuel rest (c :: acc)

/-- Python `s.split(sep)` for a non-empty separator (the module only calls
`split` with separator `", "`). -/
def pySplit (s : List Char) (pat : List Char) : List (List Char) :=
  match pat with
  | [] => [s]
  | p :: ps => pySplitAux p ps s.length s []

/-- Occurrence test: `occursIn pat s = true` iff `pat` matches at some
position of `s` (for non-empty `pat` this is the substring relation the
scanners above act on). -/
def occursIn (pat : List Char) : List Char → Bool
  | [] => pat.isEmpty
  | c :: rest => (pat.isPrefixOf (c :: rest)) || occursIn pat rest

/-- Base url removed by `load_urls` when not viewing in a browser
(source line 212). -/
def GITHUB_URL : List Char := "https://github.com/".data

/-- Separator `", "` used by `load_urls` (source line 213). -/
def commaSpace : List Char := [',', ' ']

/-- Tail of `GITHUB_URL` after its head character. -/
def GITHUB_TAIL : List Char := "ttps://github.com/".data

/-- Model of `Config.load_urls` (source lines 190 to 213) applied to the
raw string value stored under key `url_list`: strip it, then for each
exclude character in order `[`, `]`, single-quote remove every occurrence
of that character and, when `view_in_browser` is false, also remove every
occurrence of `https://github.com/`; finally split on `", "`. -/
def load_urls (view_in_browser : Bool) (raw : List Char) : List (List Char) :=
  let urls := pyStrip raw
  let urls := List.foldl
    (fun u exclude =>
      let u := pyReplaceDel u exclude
      if view_in_browser then u else pyReplaceDel u GITHUB_URL)
    urls [['['], [']'], [sqc]]
  pySplit urls commaSpace

/-- Python `repr` of a plain string containing no quote, backslash or
control characters: surround it with single quotes.  This is the shape
`RawConfigParser.write` produces for each list element when `save_urls`
stores `self.urls` (a Python list) as a value. -/
def pyRepr (s : List Char) : List Char := sqc :: (s ++ [sqc])

/-- Python `str` of a list of plain strings, e.g.
`str(list) = "[" + ", ".join(repr of each) + "]"`.  This is the raw value
`RawConfigParser` serializes for the `url_list` key. -/
def pyStrOfList (urls : List (List Char)) : List Char :=
  '[' :: (List.intercalate commaSpace (urls.map pyRepr) ++ [']'])

/-- Model of the url config file `~/.githubconfigurl`: `none` when the
file (or its `url` section) is absent, `some v` when the `url_list` key
holds raw value `v`. -/
def UrlFile : Type := Option (List Char)

/-- Model of `Config.save_urls` (source lines 215 to 232): a fresh
`RawConfigParser` is built (the prior file is never read), the `url`
section is added, `url_list` is set to `str(self.urls)`, and the file is
opened with mode `w+`, which truncates it, so the prior contents are
discarded entirely. -/
def save_urls (urls : List (List Char)) (_prior : UrlFile) : UrlFile :=
  some (pyStrOfList urls)

/-!
Model of `Config.get_github_config_path` (source lines 81 to 94):

    home = os.path.abspath(os.environ.get("HOME", ""))
    config_file_path = os.path.join(home, config_file_name)

The CPython `posixpath` functions it relies on are modelled below:
`join`, `normpath` and `abspath` (where `abspath(p)` is
`normpath(p if isabs(p) else join(getcwd(), p))`).  The current working
directory is passed explicitly as `cwd`, and the `HOME` environment
variable as an `Option`: `environ.get` yields the empty string when the
variable is unset.
-/

/-- Number of leading slashes `posixpath.normpath` preserves: one slash
normally, two when the path starts with exactly two slashes (a POSIX
special case), one when it starts with three or more. -/
def initialSlashes (p : List Char) : Nat :=
  match p with
  | [] => 0
  | c :: rest =>
    if c = '/' then
      match rest with
      | [] => 1
      | c2 :: rest2 =>
        if c2 = '/' then
          match rest2 with
          | [] => 2
          | c3 :: _ => if c3 = '/' then 1 else 2
        else 1
    else 0

/-- Split a character list at every occurrence of a single character
(used with the path separator, matching `str.split("/")`). -/
def splitOnChar (sep : Char) : List Char → List (List Char)
  | [] => [[]]
  | c :: rest =>
    if c = sep then [] :: splitOnChar sep rest
    else
      match splitOnChar sep rest with
      | [] => [[c]]
      | r :: rs => (c :: r) :: rs

/-- Path component `".."`. -/
def dotdot : List Char := ['.', '.']

/-- One step of the `posixpath.normpath` component loop: append the
component unless it is `".."` that cancels against a previous real
component. -/
def normStep (slashes : Nat) (acc : List (List Char)) (comp : List Char) :
    List (List Char) :=
  if comp ≠ dotdot ∨ (slashes = 0 ∧ acc = []) ∨
      (acc ≠ [] ∧ acc.getLast? = some dotdot) then
    acc ++ [comp]
  else
    acc.dropLast

/-- Model of `posixpath.normpath`. -/
def normpathL (p : List Char) : List Char :=
  if p = [] then ['.']
  else
    let slashes := initialSlashes p
    let comps := (splitOnChar '/' p).filter
      (fun c => !(c == []) && !(c == ['.']))
    let newComps := List.foldl (normStep slashes) [] comps
    let path := List.replicate slashes '/' ++ List.intercalate ['/'] newComps
    if path = [] then ['.'] else path

/-- Model of `posixpath.join` restricted to two arguments, the only form
the module uses. -/
def os_path_joinL (a b : List Char) : List Char :=
  if b.head? = some '/' then b
  else if a = [] ∨ a.getLast? = some '/' then a ++ b
  else a ++ '/' :: b

/-- Model of `posixpath.abspath`: make the path absolute against `cwd`,
then normalize. -/
def os_path_abspathL (cwd p : List Char) : List Char :=
  if p.head? = some '/' then normpathL p
  else normpathL (os_path_joinL cwd p)

/-- Model of `Config.get_github_config_path` (source lines 81 to 94).
`home` is the `HOME` environment variable (`none` when unset), `cwd` the
current working directory; `environ.get("HOME", "")` is `home.getD []`. -/
def get_github_config_path (home : Option (List Char)) (cwd : List Char)
    (config_file_name : List Char) : List Char :=
  os_path_joinL (os_path_abspathL cwd (home.getD [])) config_file_name

/-- Stored raw value `"[REPR1, REPR2]"` for the two github urls of the
spec example (with single quotes around each entry). -/
def rawPair : List Char :=
  '[' :: (pyRepr ("https://github.com/a/b".data) ++ commaSpace ++
    pyRepr ("https://github.com/c/d".data) ++ [']'])

/-!
Model of `Config.authenticate` (source lines 96 to 173) and the state it
acts on.

The parsed credentials file is abstracted by `Env`: `fileOk` is the value
of `os.path.isfile(config) and os.access(config, os.R_OK | os.W_OK)`
(line 115), and `github` holds the `github` section of the parsed file
(`none` when the section is absent, in which case `parser.get` raises
`NoSectionError`); each key of the section is an `Option String`
(`none` when absent, in which case `parser.get` raises `NoOptionError`).

The external `github3.login` collaborator is opaque: the session handle
it returns is represented by the arguments the code passes to it, which
is exactly what the relevant claims are about.  The two-factor callback
passed to every `login` call is always `self.request_two_factor_code`
and is modelled separately.

In the branch taken when the credentials file is missing or lacks
read/write permission (lines 136 to 173), the first two statements are

    self.user_login = ""
    while not user_login:

which assign the attribute but then read the never-assigned function
local `user_login`; CPython raises `UnboundLocalError` there, before any
prompt, any `authorize` call and any file write.  The model reproduces
this: the branch sets the attribute to the empty string and stops with
`PyErr.unboundLocal "user_login"`.
-/

/-- Parsed `github` section of `~/.githubconfig`; each field is `none`
when the corresponding key is absent. -/
structure GithubSection where
  user_login : Option String
  user_pass : Option String
  user_token : Option String
  user_feed : Option String
deriving DecidableEq

/-- Environment `authenticate` runs in: readability/writability of the
credentials file and its parsed `github` section. -/
structure Env where
  fileOk : Bool
  github : Option GithubSection
deriving DecidableEq

/-- Opaque session handle returned by `github3.login`, represented by the
credential arguments the code passes (line 121 versus line 128). -/
inductive ApiSession where
  | tokenLogin (username : String) (token : String)
  | passLogin (username : String) (password : String)
deriving DecidableEq

/-- Attribute state of the `Config` object (subset touched by
`authenticate`; `urls` is handled by `load_urls` and `save_urls`). -/
structure ConfigState where
  api : Option ApiSession
  user_login : Option String
  user_pass : Option String
  user_token : Option String
  user_feed : Option String
deriving DecidableEq

/-- Attribute state established by `Config.__init__` (source lines 64 to
77) before it calls `authenticate`: everything `None`. -/
def initConfigState : ConfigState :=
  { api := none, user_login := none, user_pass := none,
    user_token := none, user_feed := none }

/-- Unhandled Python exceptions `authenticate` can raise. -/
inductive PyErr where
  | noSection
  | noOption (key : String)
  | unboundLocal (name : String)
deriving DecidableEq

/-- Outcome of a call to `authenticate`: normal return, or an unhandled
Python exception. -/
inductive AuthOutcome where
  | success
  | failure (e : PyErr)
deriving DecidableEq

/-- Result of `authenticate`: outcome, attribute state after the call,
and whether the credentials file was written. -/
structure AuthResult where
  outcome : AuthOutcome
  state : ConfigState
  wroteFile : Bool
deriving DecidableEq

/-- Model of `Config.authenticate` (source lines 96 to 173).  With the
file readable: read `user_login` (line 118, outside the try block), try
token login (lines 121 to 126); on `NoOptionError` (missing `user_token`
key) fall back to password login (lines 128 to 133); in either case then
read `user_feed` (lines 134 to 135, outside the try block, so it runs in
both modes and a missing key raises `NoOptionError` unhandled).  With the
file not readable/writable: the interactive branch, which sets
`self.user_login` to the empty string and then raises `UnboundLocalError`
on the unassigned local `user_login` (line 140), before any prompt,
`authorize` call or file write. -/
def authenticate (env : Env) (st : ConfigState) : AuthResult :=
  if env.fileOk then
    match env.github with
    | none => { outcome := .failure .noSection, state := st, wroteFile := false }
    | some sec =>
      match sec.user_login with
      | none =>
        { outcome := .failure (.noOption "user_login"), state := st,
          wroteFile := false }
      | some loginVal =>
        let st1 := { st with user_login := some loginVal }
        match sec.user_token with
        | some tok =>
          let st2 := { st1 with api := some (.tokenLogin loginVal tok) }
          match sec.user_feed with
          | some feed =>
            { outcome := .success, state := { st2 with user_feed := some feed },
              wroteFile := false }
          | none =>
            { outcome := .failure (.noOption "user_feed"), state := st2,
              wroteFile := false }
        | none =>
          match sec.user_pass with
          | none =>
            { outcome := .failure (.noOption "user_pass"), state := st1,
              wroteFile := false }
          | some pw =>
            let st2 := { st1 with api := some (.passLogin loginVal pw) }
            match sec.user_feed with
            | some feed =>
              { outcome := .success,
                state := { st2 with user_feed := some feed },
                wroteFile := false }
            | none =>
              { outcome := .failure (.noOption "user_feed"), state := st2,
                wroteFile := false }
  else
    { outcome := .failure (.unboundLocal "user_login"),
      state := { st with user_login := some "" }, wroteFile := false }

/-- Model of `Config.request_two_factor_code` (source lines 175 to 188)
run against a stream of terminal inputs: loop while the entered code is
falsy (the empty string), return the first non-empty entry.  `none`
models an exhausted input stream (where `input()` would raise
`EOFError`). -/
def request_two_factor_code : List String → Option String
  | [] => none
  | c :: rest => if c = "" then request_two_factor_code rest else some c

/-- Truth test `bool(opt_str)` combined with presence: true iff the
attribute is set and non-empty. -/
def optNonEmpty : Option String → Bool
  | some s => s != ""
  | none => false

/-- Credentials invariant claimed by the spec for the post-state of a
successful `authenticate` call: `user_login` set and non-empty, and
exactly one of `user_token`, `user_pass` set and non-empty. -/
def credInvariant (st : ConfigState) : Bool :=
  optNonEmpty st.user_login &&
    (optNonEmpty st.user_token != optNonEmpty st.user_pass)

/-- Environment with a readable credentials file whose `github` section
holds all four keys (token and password both present). -/
def envFull : Env :=
  { fileOk := true,
    github := some
      { user_login := some "alice", user_pass := some "hunter2",
        user_token := some "abc123", user_feed := some "myfeed" } }

/-- Environment with a readable credentials file whose `github` section
holds login, token and feed but no password. -/
def envToken : Env :=
  { fileOk := true,
    github := some
      { user_login := some "alice", user_pass := none,
        user_token := some "abc123", user_feed := some "myfeed" } }

/-- Environment where the credentials file is absent or not both readable
and writable. -/
def envAbsent : Env := { fileOk := false, github := none }

/-- Environment with a readable credentials file whose `github` section
holds login and token but no feed url (and no password). -/
def envTokenNoFeed : Env :=
  { fileOk := true,
    github := some
      { user_login := some "alice", user_pass := none,
        user_token := some "abc123", user_feed := none } }

/-- Environment with a readable credentials file whose `github` section
holds login, password and feed but no token. -/
def envPass : Env :=
  { fileOk := true,
    github := some
      { user_login := some "alice", user_pass := some "hunter2",
        user_token := none, user_feed := some "myfeed" } }

/-- Stored raw single-url value whose entry contains the base url as an
internal substring, not as a prefix: `a/bhttps://github.com/c`. -/
def rawInternal : List Char :=
  '[' :: (pyRepr ("a/bhttps://github.com/c".data) ++ [']'])

/-- Stored raw single-url value whose entry contains square brackets
inside the url text: `https://github.com/x[1]/y`. -/
def rawBrackets : List Char :=
  '[' :: (pyRepr ("https://github.com/x[1]/y".data) ++ [']'])

/-!
Lemma toolkit about the string scanners, used for the general statements
about `load_urls`.
-/

theorem pyReplaceAux_nil (p : Char) (ps : List Char) (fuel : Nat) :
    pyReplaceAux p ps fuel [] = [] := by
  cases fuel <;> rfl

theorem pyReplaceAux_fuel (p : Char) (ps : List Char) :
    ∀ (f₁ : Nat) (s : List Char) (f₂ : Nat), s.length ≤ f₁ → s.length ≤ f₂ →
      pyReplaceAux p ps f₁ s = pyReplaceAux p ps f₂ s := by
  intro f₁
  induction f₁ with
  | zero =>
    intro s f₂ h1 _
    have hs : s = [] := List.eq_nil_of_length_eq_zero (Nat.le_zero.mp h1)
    subst hs
    rw [pyReplaceAux_nil, pyReplaceAux_nil]
  | succ f ih =>
    intro s f₂ h1 h2
    cases s with
    | nil => rw [pyReplaceAux_nil, pyReplaceAux_nil]
    | cons c rest =>
      cases f₂ with
      | zero => simp at h2
      | succ g =>
        simp only [pyReplaceAux]
        cases hp : (p :: ps).isPrefixOf (c :: rest) with
        | true =>
          rw [if_pos rfl, if_pos rfl]
          apply ih
          · have := List.length_drop ps.length rest
            simp at h1
            omega
          · have := List.length_drop ps.length rest
            simp at h2
            omega
        | false =>
          rw [if_neg (by simp), if_neg (by simp)]
          congr 1
          apply ih
          · simp at h1; omega
          · simp at h2; omega

theorem pyReplaceAux_of_not_occurs (p : Char) (ps : List Char) :
    ∀ (s : List Char) (fuel : Nat), s.length ≤ fuel →
      occursIn (p :: ps) s = false → pyReplaceAux p ps fuel s = s := by
  intro s
  induction s with
  | nil => intro fuel _ _; exact pyReplaceAux_nil p ps fuel
  | cons c rest ih =>
    intro fuel hlen hocc
    cases fuel with
    | zero => simp at hlen
    | succ f =>
      simp only [occursIn, Bool.or_eq_false_iff] at hocc
      simp only [pyReplaceAux, hocc.1]
      rw [if_neg]
      · rw [ih f (by simp at hlen; omega) hocc.2]
      · simp [hocc.1]

/-- Wrapper form: `replace` with a pattern that does not occur is the
identity. -/
theorem pyReplaceDel_of_not_occurs (s : List Char) (p : Char) (ps : List Char)
    (h : occursIn (p :: ps) s = false) : pyReplaceDel s (p :: ps) = s :=
  pyReplaceAux_of_not_occurs p ps s s.length (Nat.le_refl _) h

/-- When the pattern does not match at the head, `replace` keeps the head
character and continues. -/
theorem pyReplaceDel_cons (c : Char) (s : List Char) (p : Char)
    (ps : List Char) (h : (p :: ps).isPrefixOf (c :: s) = false) :
    pyReplaceDel (c :: s) (p :: ps) = c :: pyReplaceDel s (p :: ps) := by
  simp only [pyReplaceDel, List.length_cons, pyReplaceAux, h]
  rw [if_neg]
  simp [h]

theorem isPrefixOf_self_append (l t : List Char) :
    l.isPrefixOf (l ++ t) = true := by
  induction l with
  | nil => simp [List.isPrefixOf]
  | cons a as ih => simp [List.isPrefixOf, ih]

/-- When the pattern matches at the head, `replace` consumes it. -/
theorem pyReplaceDel_head (p : Char) (ps s : List Char) :
    pyReplaceDel ((p :: ps) ++ s) (p :: ps) = pyReplaceDel s (p :: ps) := by
  simp only [pyReplaceDel, List.cons_append, List.length_cons,
    List.length_append, pyReplaceAux]
  rw [if_pos]
  · simp only [List.append_eq]
    rw [List.drop_left]
    exact pyReplaceAux_fuel p ps _ s _
      (by simp only [List.append_eq, List.length_append]; omega) (Nat.le_refl _)
  · have h := isPrefixOf_self_append (p :: ps) s
    simp only [List.cons_append] at h
    exact h

theorem pyReplaceAux_filter (c : Char) :
    ∀ (s : List Char) (fuel : Nat), s.length ≤ fuel →
      pyReplaceAux c [] fuel s = s.filter (fun x => !(x == c)) := by
  intro s
  induction s with
  | nil => intro fuel _; rw [pyReplaceAux_nil]; rfl
  | cons d rest ih =>
    intro fuel hlen
    cases fuel with
    | zero => simp at hlen
    | succ f =>
      have hlen2 : rest.length ≤ f := by simp at hlen; omega
      by_cases hc : c = d
      · subst hc
        simp only [pyReplaceAux, List.isPrefixOf, beq_self_eq_true,
          Bool.true_and]
        rw [if_pos]
        · simp only [List.length_nil, List.drop_zero, List.filter_cons]
          rw [ih f hlen2]
          simp
        · simp [List.isPrefixOf]
      · have hbeq : (c == d) = false := by simp [hc]
        simp only [pyReplaceAux, List.isPrefixOf, hbeq, Bool.false_and]
        rw [if_neg (by simp)]
        rw [ih f hlen2]
        simp only [List.filter_cons]
        have : (d == c) = false := by simp; exact fun h => hc h.symm
        simp [this]

/-- Removing every occurrence of a single character is exactly filtering
that character out of the whole string. -/
theorem pyReplaceDel_single (s : List Char) (c : Char) :
    pyReplaceDel s [c] = s.filter (fun x => !(x == c)) :=
  pyReplaceAux_filter c s s.length (Nat.le_refl _)

theorem pySplitAux_nil (p : Char) (ps : List Char) (fuel : Nat)
    (acc : List Char) : pySplitAux p ps fuel [] acc = [acc.reverse] := by
  cases fuel <;> simp [pySplitAux]

theorem pySplitAux_of_not_occurs (p : Char) (ps : List Char) :
    ∀ (s : List Char) (fuel : Nat) (acc : List Char), s.length ≤ fuel →
      occursIn (p :: ps) s = false →
      pySplitAux p ps fuel s acc = [acc.reverse ++ s] := by
  intro s
  induction s with
  | nil => intro fuel acc _ _; rw [pySplitAux_nil]; simp
  | cons c rest ih =>
    intro fuel acc hlen hocc
    cases fuel with
    | zero => simp at hlen
    | succ f =>
      simp only [occursIn, Bool.or_eq_false_iff] at hocc
      simp only [pySplitAux]
      rw [if_neg (by simp [hocc.1])]
      rw [ih f (c :: acc) (by simp at hlen; omega) hocc.2]
      simp

/-- Splitting a string in which the separator does not occur yields the
single-element list holding the string itself. -/
theorem pySplit_of_not_occurs (s : List Char) (p : Char) (ps : List Char)
    (h : occursIn (p :: ps) s = false) : pySplit s (p :: ps) = [s] := by
  simp only [pySplit]
  rw [pySplitAux_of_not_occurs p ps s s.length [] (Nat.le_refl _) h]
  simp

theorem isPrefixOf_append_cases (pat : List Char) :
    ∀ (s t : List Char), pat.isPrefixOf (s ++ t) = true →
      pat.isPrefixOf s = true ∨ ∃ c ∈ pat, c ∈ t := by
  induction pat with
  | nil => intro s _ _; left; simp [List.isPrefixOf]
  | cons p pr ih =>
    intro s t h
    cases s with
    | nil =>
      right
      simp only [List.nil_append] at h
      cases t with
      | nil => simp [List.isPrefixOf] at h
      | cons a tl =>
        simp only [List.isPrefixOf, Bool.and_eq_true, beq_iff_eq] at h
        exact ⟨p, List.mem_cons_self p pr, by rw [h.1]; exact List.mem_cons_self a tl⟩
    | cons a s' =>
      simp only [List.cons_append, List.isPrefixOf, Bool.and_eq_true] at h
      rcases ih s' t h.2 with hl | ⟨c, hc1, hc2⟩
      · left; simp [List.isPrefixOf, h.1, hl]
      · right; exact ⟨c, List.mem_cons_of_mem p hc1, hc2⟩

theorem occursIn_of_disjoint (p : Char) (ps : List Char) :
    ∀ (t : List Char), (∀ c ∈ t, ¬ c ∈ (p :: ps)) →
      occursIn (p :: ps) t = false := by
  intro t
  induction t with
  | nil => intro _; rfl
  | cons c tl ih =>
    intro hdisj
    have hpc : (p == c) = false := by
      simp only [beq_eq_false_iff_ne, ne_eq]
      intro h
      exact hdisj c (List.mem_cons_self c tl)
        (h ▸ List.mem_cons_self p ps)
    simp only [occursIn, List.isPrefixOf, hpc, Bool.false_and,
      Bool.false_or]
    exact ih fun x hx => hdisj x (List.mem_cons_of_mem c hx)

/-- Appending characters that do not appear in the pattern cannot create
an occurrence of the pattern. -/
theorem occursIn_append_right (p : Char) (ps : List Char) :
    ∀ (s t : List Char), occursIn (p :: ps) s = false →
      (∀ c ∈ t, ¬ c ∈ (p :: ps)) → occursIn (p :: ps) (s ++ t) = false := by
  intro s
  induction s with
  | nil => intro t _ hdisj; exact occursIn_of_disjoint p ps t hdisj
  | cons a s' ih =>
    intro t hocc hdisj
    simp only [occursIn, Bool.or_eq_false_iff] at hocc
    simp only [List.cons_append, occursIn, Bool.or_eq_false_iff]
    refine ⟨?_, ih t hocc.2 hdisj⟩
    cases hp : (p :: ps).isPrefixOf (a :: s' ++ t) with
    | false => exact hp
    | true =>
      rcases isPrefixOf_append_cases (p :: ps) (a :: s') t
        (by rw [List.cons_append]; exact hp) with hl | ⟨c, hc1, hc2⟩
      · rw [hocc.1] at hl; exact absurd hl (by simp)
      · exact absurd hc1 (hdisj c hc2)

/-- Prepending characters distinct from the head of the pattern cannot
create an occurrence of the pattern. -/
theorem occursIn_append_left (p : Char) (ps : List Char) :
    ∀ (a u : List Char), ¬ p ∈ a → occursIn (p :: ps) u = false →
      occursIn (p :: ps) (a ++ u) = false := by
  intro a
  induction a with
  | nil => intro u _ h; exact h
  | cons c a' ih =>
    intro u hmem hocc
    have hpc : (p == c) = false := by
      simp only [beq_eq_false_iff_ne, ne_eq]
      intro h
      exact hmem (h ▸ List.mem_cons_self c a')
    simp only [List.cons_append, occursIn, List.isPrefixOf, hpc,
      Bool.false_and, Bool.false_or]
    exact ih u (fun h => hmem (List.mem_cons_of_mem c h)) hocc

/-- Strip is the identity on a string that neither starts nor ends with
whitespace. -/
theorem pyStrip_eq_self (c d : Char) (l : List Char)
    (hc : isPySpace c = false) (hd : isPySpace d = false) :
    pyStrip (c :: (l ++ [d])) = c :: (l ++ [d]) := by
  have h1 : List.dropWhile isPySpace (c :: (l ++ [d])) = c :: (l ++ [d]) := by
    simp [List.dropWhile_cons, hc]
  have h2 : (c :: (l ++ [d])).reverse = d :: (l.reverse ++ [c]) := by
    simp
  have h3 : List.dropWhile isPySpace (d :: (l.reverse ++ [c])) =
      d :: (l.reverse ++ [c]) := by
    simp [List.dropWhile_cons, hd]
  unfold pyStrip
  rw [h1, h2, h3, ← h2, List.reverse_reverse]

/-!
Lemmas about the path model, used for the claim about
`get_github_config_path`.
-/

theorem splitOnChar_ne_nil (sep : Char) :
    ∀ l : List Char, splitOnChar sep l ≠ [] := by
  intro l
  induction l with
  | nil => simp [splitOnChar]
  | cons c rest ih =>
    by_cases h : c = sep
    · simp [splitOnChar, h]
    · simp only [splitOnChar, if_neg h]
      cases hsp : splitOnChar sep rest with
      | nil => simp
      | cons r rs => simp

theorem splitOnChar_append_last (sep : Char) :
    ∀ l : List Char,
      splitOnChar sep (l ++ [sep]) = splitOnChar sep l ++ [[]] := by
  intro l
  induction l with
  | nil => simp [splitOnChar]
  | cons c rest ih =>
    have hstep : (c :: rest) ++ [sep] = c :: (rest ++ [sep]) := rfl
    rw [hstep]
    by_cases h : c = sep
    · have e1 : splitOnChar sep (c :: (rest ++ [sep])) =
          [] :: splitOnChar sep (rest ++ [sep]) := by
        simp [splitOnChar, h]
      have e2 : splitOnChar sep (c :: rest) =
          [] :: splitOnChar sep rest := by
        simp [splitOnChar, h]
      rw [e1, e2, ih]
      rfl
    · have e1 : splitOnChar sep (c :: (rest ++ [sep])) =
          match splitOnChar sep (rest ++ [sep]) with
          | [] => [[c]]
          | r :: rs => (c :: r) :: rs := by
        simp [splitOnChar, h]
      have e2 : splitOnChar sep (c :: rest) =
          match splitOnChar sep rest with
          | [] => [[c]]
          | r :: rs => (c :: r) :: rs := by
        simp [splitOnChar, h]
      rw [e1, e2, ih]
      cases hsp : splitOnChar sep rest with
      | nil => exact absurd hsp (splitOnChar_ne_nil sep rest)
      | cons r rs => simp

theorem initialSlashes_append_last :
    ∀ p : List Char, p ≠ [] → p.getLast? ≠ some '/' →
      initialSlashes (p ++ ['/']) = initialSlashes p := by
  intro p hne hlast
  match p with
  | [] => exact absurd rfl hne
  | [a] =>
    have ha : a ≠ '/' := by simpa using hlast
    simp [initialSlashes, ha]
  | [a, b] =>
    have hb : b ≠ '/' := by simpa using hlast
    by_cases hA : a = '/'
    · simp [initialSlashes, hA, hb]
    · simp [initialSlashes, hA]
  | a :: b :: c :: rest =>
    by_cases hA : a = '/'
    · by_cases hB : b = '/'
      · by_cases hC : c = '/'
        · simp [initialSlashes, hA, hB, hC]
        · simp [initialSlashes, hA, hB, hC]
      · simp [initialSlashes, hA, hB]
    · simp [initialSlashes, hA]

theorem normpathL_append_last (p : List Char) (hne : p ≠ [])
    (hlast : p.getLast? ≠ some '/') :
    normpathL (p ++ ['/']) = normpathL p := by
  have hne2 : p ++ ['/'] ≠ [] := by simp
  unfold normpathL
  rw [if_neg hne2, if_neg hne]
  rw [initialSlashes_append_last p hne hlast]
  rw [splitOnChar_append_last]
  simp [List.filter_append]

/-- The absolute path of the empty string is the (normalized) current
working directory; for a normalized `cwd`, exactly `cwd` itself. -/
theorem os_path_abspathL_empty (cwd : List Char) (hne : cwd ≠ [])
    (hlast : cwd.getLast? ≠ some '/') :
    os_path_abspathL cwd [] = normpathL cwd := by
  unfold os_path_abspathL os_path_joinL
  rw [if_neg (by simp)]
  rw [if_neg (by simp)]
  rw [if_neg (fun h => h.elim hne hlast)]
  exact normpathL_append_last cwd hne hlast

/-!
General computation of `load_urls` on a stored single-url list value of
the canonical shape produced by `save_urls`, for any url
`https://github.com/` ++ `u` whose path part `u` is free of the
list-decoration characters, of the base-url substring and of the
separator.
-/

theorem GITHUB_URL_decomp : GITHUB_URL = 'h' :: GITHUB_TAIL := by decide

theorem isPrefixOf_cons_of_head_ne (p c : Char) (ps rest : List Char)
    (h : (p == c) = false) :
    (p :: ps).isPrefixOf (c :: rest) = false := by
  simp [List.isPrefixOf, h]

set_option maxHeartbeats 2000000 in
theorem load_urls_single (u : List Char)
    (hclean : ∀ c ∈ u, c ≠ '[' ∧ c ≠ ']' ∧ c ≠ sqc)
    (hG : occursIn GITHUB_URL u = false)
    (hCS : occursIn commaSpace u = false) :
    load_urls false ('[' :: (pyRepr (GITHUB_URL ++ u) ++ [']'])) = [u] ∧
    load_urls true ('[' :: (pyRepr (GITHUB_URL ++ u) ++ [']'])) =
      [GITHUB_URL ++ u] := by
  have hGfalse : occursIn ('h' :: GITHUB_TAIL) u = false := by
    rw [← GITHUB_URL_decomp]; exact hG
  have hCSfalse : occursIn (',' :: [' ']) u = false := hCS
  have hu1 : u.filter (fun x => !(x == '[')) = u :=
    List.filter_eq_self.mpr (fun a ha => by simp [(hclean a ha).1])
  have hu2 : u.filter (fun x => !(x == ']')) = u :=
    List.filter_eq_self.mpr (fun a ha => by simp [(hclean a ha).2.1])
  have hu3 : u.filter (fun x => !(x == sqc)) = u :=
    List.filter_eq_self.mpr (fun a ha => by simp [(hclean a ha).2.2])
  have hG1 : GITHUB_URL.filter (fun x => !(x == '[')) = GITHUB_URL := by decide
  have hG2 : GITHUB_URL.filter (fun x => !(x == ']')) = GITHUB_URL := by decide
  have hG3 : GITHUB_URL.filter (fun x => !(x == sqc)) = GITHUB_URL := by decide
  have hstrip : pyStrip ('[' :: ((sqc :: ((GITHUB_URL ++ u) ++ [sqc])) ++
      [']'])) = '[' :: ((sqc :: ((GITHUB_URL ++ u) ++ [sqc])) ++ [']']) :=
    pyStrip_eq_self '[' ']' (sqc :: ((GITHUB_URL ++ u) ++ [sqc]))
      (by decide) (by decide)
  -- Removal of the base url from the three intermediate strings.
  have hdisj1 : ∀ c ∈ [sqc, ']'], ¬ c ∈ ('h' :: GITHUB_TAIL) := by decide
  have hdisj2 : ∀ c ∈ [sqc], ¬ c ∈ ('h' :: GITHUB_TAIL) := by decide
  have hnoG1 : occursIn ('h' :: GITHUB_TAIL) (u ++ [sqc, ']']) = false :=
    occursIn_append_right 'h' GITHUB_TAIL u [sqc, ']'] hGfalse hdisj1
  have hnoG2 : occursIn ('h' :: GITHUB_TAIL) (u ++ [sqc]) = false :=
    occursIn_append_right 'h' GITHUB_TAIL u [sqc] hGfalse hdisj2
  have hremG1 : pyReplaceDel (sqc :: (('h' :: GITHUB_TAIL) ++
      (u ++ [sqc, ']']))) ('h' :: GITHUB_TAIL) = sqc :: (u ++ [sqc, ']']) := by
    rw [pyReplaceDel_cons _ _ _ _
      (isPrefixOf_cons_of_head_ne 'h' sqc _ _ (by decide))]
    rw [pyReplaceDel_head]
    rw [pyReplaceDel_of_not_occurs _ _ _ hnoG1]
  have hremG2 : pyReplaceDel (sqc :: (u ++ [sqc])) ('h' :: GITHUB_TAIL) =
      sqc :: (u ++ [sqc]) := by
    rw [pyReplaceDel_cons _ _ _ _
      (isPrefixOf_cons_of_head_ne 'h' sqc _ _ (by decide))]
    rw [pyReplaceDel_of_not_occurs _ _ _ hnoG2]
  have hremG3 : pyReplaceDel u ('h' :: GITHUB_TAIL) = u :=
    pyReplaceDel_of_not_occurs _ _ _ hGfalse
  have hsplitu : pySplit u commaSpace = [u] :=
    pySplit_of_not_occurs u ',' [' '] hCSfalse
  have hsplitGu : pySplit (GITHUB_URL ++ u) commaSpace = [GITHUB_URL ++ u] := by
    apply pySplit_of_not_occurs
    rw [GITHUB_URL_decomp]
    apply occursIn_append_left ',' [' '] ('h' :: GITHUB_TAIL) u
      (by decide) hCSfalse
  have hremG1G : pyReplaceDel (sqc :: (GITHUB_URL ++ (u ++ [sqc, ']'])))
      GITHUB_URL = sqc :: (u ++ [sqc, ']']) := by
    rw [GITHUB_URL_decomp]; exact hremG1
  have hremG2G : pyReplaceDel (sqc :: (u ++ [sqc])) GITHUB_URL =
      sqc :: (u ++ [sqc]) := by
    rw [GITHUB_URL_decomp]; exact hremG2
  have hremG3G : pyReplaceDel u GITHUB_URL = u := by
    rw [GITHUB_URL_decomp]; exact hremG3
  have q1 : (!(('[' : Char) == '[')) = false := by decide
  have q2 : (!(sqc == '[')) = true := by decide
  have q3 : (!((']' : Char) == '[')) = true := by decide
  have q4 : (!((']' : Char) == ']')) = false := by decide
  have q5 : (!(sqc == ']')) = true := by decide
  have q6 : (!(sqc == sqc)) = false := by decide
  have hA : pyReplaceDel ('[' :: ((sqc :: ((GITHUB_URL ++ u) ++ [sqc])) ++
      [']'])) ['['] = sqc :: (GITHUB_URL ++ (u ++ [sqc, ']'])) := by
    rw [pyReplaceDel_single]
    simp [q1, q2, q3, hu1, hG1, List.filter_append, List.append_assoc]
  have hC : pyReplaceDel (sqc :: (u ++ [sqc, ']'])) [']'] =
      sqc :: (u ++ [sqc]) := by
    rw [pyReplaceDel_single]
    simp [q4, q5, hu2, List.filter_append]
  have hE : pyReplaceDel (sqc :: (u ++ [sqc])) [sqc] = u := by
    rw [pyReplaceDel_single]
    simp [q6, hu3, List.filter_append]
  have hBtrue : pyReplaceDel (sqc :: (GITHUB_URL ++ (u ++ [sqc, ']'])))
      [']'] = sqc :: (GITHUB_URL ++ (u ++ [sqc])) := by
    rw [pyReplaceDel_single]
    simp [q4, q5, hu2, hG2, List.filter_append]
  have hCtrue : pyReplaceDel (sqc :: (GITHUB_URL ++ (u ++ [sqc]))) [sqc] =
      GITHUB_URL ++ u := by
    rw [pyReplaceDel_single]
    simp [q6, hu3, hG3, List.filter_append]
  have hfalse_eq : ∀ raw : List Char, load_urls false raw =
      pySplit (pyReplaceDel (pyReplaceDel (pyReplaceDel (pyReplaceDel
        (pyReplaceDel (pyReplaceDel (pyStrip raw) ['[']) GITHUB_URL) [']'])
        GITHUB_URL) [sqc]) GITHUB_URL) commaSpace := fun _ => rfl
  have htrue_eq : ∀ raw : List Char, load_urls true raw =
      pySplit (pyReplaceDel (pyReplaceDel (pyReplaceDel (pyStrip raw) ['['])
        [']']) [sqc]) commaSpace := fun _ => rfl
  constructor
  · show load_urls false ('[' :: (pyRepr (GITHUB_URL ++ u) ++ [']'])) = [u]
    rw [hfalse_eq]
    simp only [pyRepr]
    rw [hstrip, hA, hremG1G, hC, hremG2G, hE, hremG3G]
    exact hsplitu
  · show load_urls true ('[' :: (pyRepr (GITHUB_URL ++ u) ++ [']'])) =
      [GITHUB_URL ++ u]
    rw [htrue_eq]
    simp only [pyRepr]
    rw [hstrip, hA, hBtrue, hCtrue]
    exact hsplitGu

/-!
Claim theorems.
-/

/-- Claim C1, counterexample.  A run of `authenticate` that completes
successfully from the `__init__` state (loading saved credentials in
token mode) leaves both `user_token` and `user_pass` unset (`None`), so
the claimed invariant (login non-empty and exactly one of token/password
set and non-empty) is false for the resulting state. -/
theorem claim_C1_counterexample :
    (authenticate envToken initConfigState).outcome = .success ∧
    credInvariant (authenticate envToken initConfigState).state = false := by
  decide

/-- Claim C1, amended.  A successful `authenticate` run necessarily took
the saved-credentials branch; it sets `user_login` and `user_feed` to the
values stored in the file (the login value may be empty), leaves
`user_token` and `user_pass` unchanged at `None`, and builds the session
with exactly one of the stored token or password, token preferred. -/
theorem claim_C1_amended : ∀ env : Env,
    (authenticate env initConfigState).outcome = .success →
    env.fileOk = true ∧
    (authenticate env initConfigState).state.user_token = none ∧
    (authenticate env initConfigState).state.user_pass = none ∧
    ∃ sec l f, env.github = some sec ∧ sec.user_login = some l ∧
      sec.user_feed = some f ∧
      (authenticate env initConfigState).state.user_login = some l ∧
      (authenticate env initConfigState).state.user_feed = some f ∧
      ((∃ t, sec.user_token = some t ∧
          (authenticate env initConfigState).state.api =
            some (.tokenLogin l t)) ∨
       (sec.user_token = none ∧ ∃ p, sec.user_pass = some p ∧
          (authenticate env initConfigState).state.api =
            some (.passLogin l p))) := by
  intro env h
  obtain ⟨fo, gh⟩ := env
  cases fo with
  | false => simp [authenticate] at h
  | true =>
    cases gh with
    | none => simp [authenticate] at h
    | some sec =>
      obtain ⟨ul, up, ut, uf⟩ := sec
      cases ul with
      | none => simp [authenticate] at h
      | some l =>
        cases ut with
        | some t =>
          cases uf with
          | none => simp [authenticate] at h
          | some f =>
            refine ⟨rfl, by simp [authenticate, initConfigState],
              by simp [authenticate, initConfigState], _, l, f, rfl, rfl,
              rfl, by simp [authenticate], by simp [authenticate],
              Or.inl ⟨t, rfl, by simp [authenticate]⟩⟩
        | none =>
          cases up with
          | none => simp [authenticate] at h
          | some p =>
            cases uf with
            | none => simp [authenticate] at h
            | some f =>
              refine ⟨rfl, by simp [authenticate, initConfigState],
                by simp [authenticate, initConfigState], _, l, f, rfl, rfl,
                rfl, by simp [authenticate], by simp [authenticate],
                Or.inr ⟨rfl, p, rfl, by simp [authenticate]⟩⟩

/-- Claim C1, witness for the amended statement at a concrete
environment (token mode with saved credentials). -/
theorem claim_C1_amended_witness :
    (authenticate envToken initConfigState).outcome = .success ∧
    (envToken.fileOk = true ∧
     (authenticate envToken initConfigState).state.user_token = none ∧
     (authenticate envToken initConfigState).state.user_pass = none ∧
     ∃ sec l f, envToken.github = some sec ∧ sec.user_login = some l ∧
       sec.user_feed = some f ∧
       (authenticate envToken initConfigState).state.user_login = some l ∧
       (authenticate envToken initConfigState).state.user_feed = some f ∧
       ((∃ t, sec.user_token = some t ∧
           (authenticate envToken initConfigState).state.api =
             some (.tokenLogin l t)) ∨
        (sec.user_token = none ∧ ∃ p, sec.user_pass = some p ∧
           (authenticate envToken initConfigState).state.api =
             some (.passLogin l p)))) :=
  ⟨by decide, claim_C1_amended envToken (by decide)⟩

/-- Claim C2.  Whenever the credentials file is absent or not both
readable and writable, `authenticate` takes the interactive branch and
immediately raises `UnboundLocalError` on the function local
`user_login` (after assigning the empty string to the attribute), and
writes nothing: the claim that this branch raises no unhandled error is
contradicted by the code. -/
theorem claim_C2 : ∀ (env : Env) (st : ConfigState), env.fileOk = false →
    authenticate env st =
      { outcome := .failure (.unboundLocal "user_login"),
        state := { st with user_login := some "" }, wroteFile := false } := by
  intro env st h
  obtain ⟨fo, gh⟩ := env
  cases fo with
  | false => rfl
  | true => simp at h

/-- Claim C2, witness at the concrete absent-file environment. -/
theorem claim_C2_witness :
    authenticate envAbsent initConfigState =
      { outcome := .failure (.unboundLocal "user_login"),
        state := { initConfigState with user_login := some "" },
        wroteFile := false } :=
  claim_C2 envAbsent initConfigState rfl

/-- Claim C3.  When the loaded `github` section has a `user_token` key
(whatever else it holds), the session is built by token login with that
token, never from `user_pass`; and a password-login session can only
arise when the `user_token` key is absent, using the stored login and
password. -/
theorem claim_C3 :
    (∀ (env : Env) (st : ConfigState) (sec : GithubSection) (l t : String),
      env.fileOk = true → env.github = some sec → sec.user_login = some l →
      sec.user_token = some t →
      (authenticate env st).state.api = some (.tokenLogin l t)) ∧
    (∀ (env : Env) (l p : String),
      (authenticate env initConfigState).state.api =
        some (.passLogin l p) →
      ∃ sec, env.github = some sec ∧ sec.user_token = none ∧
        sec.user_login = some l ∧ sec.user_pass = some p) := by
  constructor
  · intro env st sec l t hfo hgh hl ht
    obtain ⟨fo, gh⟩ := env
    subst hfo
    subst hgh
    obtain ⟨ul, up, ut, uf⟩ := sec
    simp only at hl ht
    subst hl
    subst ht
    cases uf <;> simp [authenticate]
  · intro env l p h
    obtain ⟨fo, gh⟩ := env
    cases fo with
    | false => simp [authenticate, initConfigState] at h
    | true =>
      cases gh with
      | none => simp [authenticate, initConfigState] at h
      | some sec =>
        obtain ⟨ul, up, ut, uf⟩ := sec
        cases ul with
        | none => simp [authenticate, initConfigState] at h
        | some l0 =>
          cases ut with
          | some t0 => cases uf <;> simp [authenticate] at h
          | none =>
            cases up with
            | none => simp [authenticate, initConfigState] at h
            | some p0 =>
              have hlp : l0 = l ∧ p0 = p := by
                cases uf <;> simpa [authenticate] using h
              exact ⟨⟨some l0, some p0, none, uf⟩, rfl, rfl,
                by rw [hlp.1], by rw [hlp.2]⟩

/-- Claim C3, witness: with both token and password stored, the session
is the token one; and the password-mode characterization applied at the
password-only environment. -/
theorem claim_C3_witness :
    (authenticate envFull initConfigState).state.api =
      some (.tokenLogin "alice" "abc123") ∧
    ∃ sec, envPass.github = some sec ∧ sec.user_token = none ∧
      sec.user_login = some "alice" ∧ sec.user_pass = some "hunter2" :=
  ⟨claim_C3.1 envFull initConfigState
      { user_login := some "alice", user_pass := some "hunter2",
        user_token := some "abc123", user_feed := some "myfeed" }
      "alice" "abc123" rfl rfl rfl rfl,
   claim_C3.2 envPass "alice" "hunter2" (by decide)⟩

/-- Claim C4, counterexample.  In a token-based session the feed url is
read and set all the same: with token and feed stored, the successful
token-mode run sets `user_feed`; and with a token but no feed key, the
token-mode run raises `NoOptionError` on `user_feed`, which could not
happen if the key were not read. -/
theorem claim_C4_counterexample :
    (authenticate envToken initConfigState).state.api =
      some (.tokenLogin "alice" "abc123") ∧
    (authenticate envToken initConfigState).state.user_feed =
      some "myfeed" ∧
    (authenticate envTokenNoFeed initConfigState).outcome =
      .failure (.noOption "user_feed") := by
  decide

/-- Claim C4, amended.  The `user_feed` key is read unconditionally after
the login call, in token mode as well as in password mode: in token mode
the run succeeds with `user_feed` set exactly when the key is present,
and raises `NoOptionError "user_feed"` when it is absent. -/
theorem claim_C4_amended :
    ∀ (env : Env) (st : ConfigState) (sec : GithubSection) (l t : String),
      env.fileOk = true → env.github = some sec → sec.user_login = some l →
      sec.user_token = some t →
      ((∃ f, sec.user_feed = some f ∧
          (authenticate env st).outcome = .success ∧
          (authenticate env st).state.user_feed = some f) ∨
       (sec.user_feed = none ∧
          (authenticate env st).outcome =
            .failure (.noOption "user_feed"))) := by
  intro env st sec l t hfo hgh hl ht
  obtain ⟨fo, gh⟩ := env
  subst hfo
  subst hgh
  obtain ⟨ul, up, ut, uf⟩ := sec
  simp only at hl ht
  subst hl
  subst ht
  cases uf with
  | none => exact Or.inr ⟨rfl, by simp [authenticate]⟩
  | some f => exact Or.inl ⟨f, rfl, by simp [authenticate],
      by simp [authenticate]⟩

/-- Claim C4, witness for the amended statement at the token-and-feed
environment. -/
theorem claim_C4_amended_witness :
    (∃ f, (some "myfeed" : Option String) = some f ∧
       (authenticate envToken initConfigState).outcome = .success ∧
       (authenticate envToken initConfigState).state.user_feed = some f) ∨
    ((some "myfeed" : Option String) = none ∧
       (authenticate envToken initConfigState).outcome =
         .failure (.noOption "user_feed")) :=
  claim_C4_amended envToken initConfigState
    { user_login := some "alice", user_pass := none,
      user_token := some "abc123", user_feed := some "myfeed" }
    "alice" "abc123" rfl rfl rfl rfl

/-- Claim C5.  On every run that reaches the interactive-authorization
branch (credentials file absent or lacking permissions), `authenticate`
stops with an unhandled `UnboundLocalError` before any prompt, before the
remote `authorize` call, and before any file write, so the credentials
file is never written from that branch; in particular no run of that
branch ever reaches the rejected-authorization handler. -/
theorem claim_C5 : ∀ (env : Env) (st : ConfigState), env.fileOk = false →
    (authenticate env st).outcome = .failure (.unboundLocal "user_login") ∧
    (authenticate env st).wroteFile = false := by
  intro env st h
  obtain ⟨fo, gh⟩ := env
  cases fo with
  | false => exact ⟨rfl, rfl⟩
  | true => simp at h

/-- Claim C5, witness at the concrete absent-file environment. -/
theorem claim_C5_witness :
    (authenticate envAbsent initConfigState).outcome =
      .failure (.unboundLocal "user_login") ∧
    (authenticate envAbsent initConfigState).wroteFile = false :=
  claim_C5 envAbsent initConfigState rfl

/-- Claim C6.  On the stored raw value of the spec example, `load_urls`
returns the short paths when `view_in_browser` is false and the full
urls when it is true; and in general, for any single stored url
`https://github.com/u` whose path part is free of the list-decoration
characters, of the base-url substring and of the separator, the base-url
prefix is stripped exactly when `view_in_browser` is false. -/
theorem claim_C6 :
    (load_urls false rawPair = ["a/b".data, "c/d".data] ∧
     load_urls true rawPair =
       ["https://github.com/a/b".data, "https://github.com/c/d".data]) ∧
    (∀ u : List Char, (∀ c ∈ u, c ≠ '[' ∧ c ≠ ']' ∧ c ≠ sqc) →
      occursIn GITHUB_URL u = false → occursIn commaSpace u = false →
      load_urls false ('[' :: (pyRepr (GITHUB_URL ++ u) ++ [']'])) = [u] ∧
      load_urls true ('[' :: (pyRepr (GITHUB_URL ++ u) ++ [']'])) =
        [GITHUB_URL ++ u]) := by
  exact ⟨⟨by decide, by decide⟩, load_urls_single⟩

/-- Claim C6, witness for the general part at the path `a/b`. -/
theorem claim_C6_witness :
    load_urls false ('[' :: (pyRepr (GITHUB_URL ++ "a/b".data) ++ [']'])) =
      ["a/b".data] ∧
    load_urls true ('[' :: (pyRepr (GITHUB_URL ++ "a/b".data) ++ [']'])) =
      [GITHUB_URL ++ "a/b".data] :=
  claim_C6.2 "a/b".data (by decide) (by decide) (by decide)

/-- Claim C7.  Saving a url list builds the file contents from that list
alone (a fresh parser is written to a truncated file), so two successive
saves leave exactly the state a single save of the second list leaves,
and only the second list is recoverable: a full overwrite, not a
merge. -/
theorem claim_C7 : ∀ (a b : List (List Char)) (f0 : UrlFile),
    save_urls b (save_urls a f0) = save_urls b f0 ∧
    save_urls b f0 = some (pyStrOfList b) :=
  fun _ _ _ => ⟨rfl, rfl⟩

/-- Claim C8.  The two-factor prompt loops on empty input and returns
exactly the first non-empty entry of the input stream; but the login
prompt of the interactive branch never loops at all: the branch raises
`UnboundLocalError` on `user_login` before prompting (and its password
prompt would call the unimported `getpass`), contradicting the claim for
the login and password prompts. -/
theorem claim_C8 :
    (∀ inputs : List String, request_two_factor_code inputs =
      inputs.find? (fun s => s != "")) ∧
    (∀ (env : Env) (st : ConfigState), env.fileOk = false →
      (authenticate env st).outcome =
        .failure (.unboundLocal "user_login")) := by
  constructor
  · intro inputs
    induction inputs with
    | nil => rfl
    | cons c rest ih =>
      by_cases h : c = ""
      · subst h
        simp [request_two_factor_code, List.find?, ih]
      · have hb : (c != "") = true := by simpa using h
        simp [request_two_factor_code, List.find?, h, hb]
  · intro env st h
    obtain ⟨fo, gh⟩ := env
    cases fo with
    | false => rfl
    | true => simp at h

/-- Claim C8, witness: the two-factor prompt on the stream
`["", "abc"]` regards the empty entry as a retry and returns `abc`, and
the interactive branch fails at the concrete absent-file environment. -/
theorem claim_C8_witness :
    request_two_factor_code ["", "abc"] = some "abc" ∧
    (authenticate envAbsent initConfigState).outcome =
      .failure (.unboundLocal "user_login") :=
  ⟨(claim_C8.1 ["", "abc"]).trans (by decide),
   claim_C8.2 envAbsent initConfigState rfl⟩

/-- Claim C9.  `get_github_config_path` is a total function equal to
`join(abspath(HOME or empty), filename)`, and when `HOME` is unset or
empty it falls back to the absolute path of the current working
directory: for a normalized absolute `cwd` (as `getcwd` returns) the
result is exactly `join(cwd, filename)`, with no failure path. -/
theorem claim_C9 :
    (∀ (home : Option (List Char)) (cwd fn : List Char),
      get_github_config_path home cwd fn =
        os_path_joinL (os_path_abspathL cwd (home.getD [])) fn) ∧
    (∀ (home : Option (List Char)) (cwd fn : List Char),
      (home = none ∨ home = some []) → cwd ≠ [] →
      cwd.getLast? ≠ some '/' → normpathL cwd = cwd →
      get_github_config_path home cwd fn = os_path_joinL cwd fn) := by
  constructor
  · intro home cwd fn
    rfl
  · intro home cwd fn hhome hne hlast hfix
    have hgetd : home.getD [] = [] := by
      rcases hhome with h | h <;> simp [h]
    show os_path_joinL (os_path_abspathL cwd (home.getD [])) fn =
      os_path_joinL cwd fn
    rw [hgetd, os_path_abspathL_empty cwd hne hlast, hfix]

/-- Claim C9, witness: with `HOME` unset, `cwd = /root` and the
credentials file name, the path is `cwd`-relative. -/
theorem claim_C9_witness :
    get_github_config_path none "/root".data ".githubconfig".data =
      os_path_joinL "/root".data ".githubconfig".data :=
  claim_C9.2 none "/root".data ".githubconfig".data (Or.inl rfl)
    (by decide) (by decide) (by decide)

/-- Claim C10.  Removing an exclude character acts on the entire stored
value (it equals filtering that character out everywhere, including
inside url text), and the base-url removal acts anywhere within an
entry, not only as a leading prefix: an entry with an internal
`https://github.com/` substring loses it when `view_in_browser` is
false, and an entry with brackets inside its url text loses them in both
modes. -/
theorem claim_C10 :
    (∀ (s : List Char) (c : Char),
      pyReplaceDel s [c] = s.filter (fun x => !(x == c))) ∧
    load_urls false rawInternal = ["a/bc".data] ∧
    load_urls false rawBrackets = ["x1/y".data] ∧
    load_urls true rawBrackets = ["https://github.com/x1/y".data] :=
  ⟨pyReplaceDel_single, by decide, by decide, by decide⟩

end Gitsome
